import Mathlib

/-!
Verification development for the AccessLaw-UI repository.

The definitions below are a shallow embedding of the TypeScript source:

* the Server-Sent-Events decoder loop of `handleSubmit` in `src/app/page.tsx`
  (lines 404-443): per network chunk, `chunk.split("\n")`, then for each line
  `line.startsWith("data: ")`, `line.slice(6)`, the `[DONE]` check (`continue`),
  `JSON.parse` with a swallowed failure, and the truthiness test `parsed.content`;
* the turn orchestration of `handleSubmit` / `stopStreaming` in `src/app/page.tsx`,
  modelled as a state machine whose events are the state updates the code performs;
* the field-extraction route `src/app/api/fill-template/route.ts` and its caller
  `fillTemplateWithLLM` in `src/app/page.tsx`.

JavaScript strings are modelled as `List Char` where positional processing
matters and as `String` elsewhere; `JSON.parse` is modelled by an executable
recursive-descent JSON reader over `List Char`.
-/

namespace AccessLaw

/-! ## JSON values (the image of `JSON.parse`) -/

inductive Json where
  | null : Json
  | jbool : Bool → Json
  | jnum : String → Json
  | jstr : String → Json
  | jarr : List Json → Json
  | jobj : List (String × Json) → Json

/-- JSON insignificant whitespace. -/
def isJsonWs (c : Char) : Bool :=
  c = ' ' || c = '\t' || c = '\n' || c = '\r'

def skipWs : List Char → List Char
  | [] => []
  | c :: r => if isJsonWs c then skipWs r else c :: r

def hexVal (c : Char) : Option Nat :=
  if '0' ≤ c ∧ c ≤ '9' then some (c.toNat - '0'.toNat)
  else if 'a' ≤ c ∧ c ≤ 'f' then some (c.toNat - 'a'.toNat + 10)
  else if 'A' ≤ c ∧ c ≤ 'F' then some (c.toNat - 'A'.toNat + 10)
  else none

/-- Body of a JSON string literal, after the opening quote; `acc` is the
reversed list of characters read so far. -/
def pStrAux : List Char → List Char → Option (String × List Char)
  | acc, '"' :: r => some (String.mk acc.reverse, r)
  | acc, '\\' :: '"' :: r => pStrAux ('"' :: acc) r
  | acc, '\\' :: '\\' :: r => pStrAux ('\\' :: acc) r
  | acc, '\\' :: '/' :: r => pStrAux ('/' :: acc) r
  | acc, '\\' :: 'b' :: r => pStrAux ('\x08' :: acc) r
  | acc, '\\' :: 'f' :: r => pStrAux ('\x0c' :: acc) r
  | acc, '\\' :: 'n' :: r => pStrAux ('\n' :: acc) r
  | acc, '\\' :: 'r' :: r => pStrAux ('\r' :: acc) r
  | acc, '\\' :: 't' :: r => pStrAux ('\t' :: acc) r
  | acc, '\\' :: 'u' :: h1 :: h2 :: h3 :: h4 :: r =>
    match hexVal h1, hexVal h2, hexVal h3, hexVal h4 with
    | some a, some b, some c, some d =>
      pStrAux (Char.ofNat (((a * 16 + b) * 16 + c) * 16 + d) :: acc) r
    | _, _, _, _ => none
  | _, '\\' :: _ => none
  | acc, c :: r => if c.toNat < 32 then none else pStrAux (c :: acc) r
  | _, [] => none

def pStr (s : List Char) : Option (String × List Char) :=
  pStrAux [] s

def digitSpan (s : List Char) : List Char × List Char :=
  s.span Char.isDigit

/-- Optional JSON fraction part. -/
def pFrac : List Char → Option (List Char × List Char)
  | '.' :: r =>
    let (fd, r') := digitSpan r
    if fd = [] then none else some ('.' :: fd, r')
  | s => some ([], s)

/-- Optional JSON exponent part. -/
def pExp : List Char → Option (List Char × List Char)
  | e :: r =>
    if e = 'e' ∨ e = 'E' then
      let (sgn, r') :=
        match r with
        | '+' :: t => ((['+'] : List Char), t)
        | '-' :: t => ((['-'] : List Char), t)
        | _ => (([] : List Char), r)
      let (ed, r'') := digitSpan r'
      if ed = [] then none else some (e :: sgn ++ ed, r'')
    else some ([], e :: r)
  | [] => some ([], [])

/-- JSON number lexeme after an optional leading minus was noted:
integer part (no leading zeros), fraction, exponent. -/
def pNumTail (s : List Char) : Option (List Char × List Char) :=
  match s with
  | [] => none
  | c :: rest =>
    if ¬ c.isDigit then none
    else
      let (ds, r1) := if c = '0' then (['0'], rest) else digitSpan s
      match pFrac r1 with
      | none => none
      | some (fr, r2) =>
        match pExp r2 with
        | none => none
        | some (ex, r3) => some (ds ++ fr ++ ex, r3)

def pNum (s : List Char) : Option (String × List Char) :=
  match s with
  | '-' :: r =>
    match pNumTail r with
    | some (l, rest) => some (String.mk ('-' :: l), rest)
    | none => none
  | _ =>
    match pNumTail s with
    | some (l, rest) => some (String.mk l, rest)
    | none => none

/-- Parsing continuation: a whole value, the members of an object after its
opening brace, or the items of an array after its opening bracket. -/
inductive PMode where
  | val : PMode
  | objRest : Bool → List (String × Json) → PMode
  | arrRest : Bool → List Json → PMode

/-- Fuelled recursive-descent JSON reader (single function so that the kernel
can evaluate it). -/
def pRun (fuel : Nat) (mode : PMode) (s : List Char) : Option (Json × List Char) :=
  match fuel with
  | 0 => none
  | fuel + 1 =>
    match mode with
    | .val =>
      match skipWs s with
      | [] => none
      | c :: r =>
        if c = '"' then
          match pStr r with
          | some (str, rest) => some (Json.jstr str, rest)
          | none => none
        else if c = '\x7b' then pRun fuel (.objRest true []) r
        else if c = '[' then pRun fuel (.arrRest true []) r
        else if c = 't' then
          match r with
          | 'r' :: 'u' :: 'e' :: rest => some (Json.jbool true, rest)
          | _ => none
        else if c = 'f' then
          match r with
          | 'a' :: 'l' :: 's' :: 'e' :: rest => some (Json.jbool false, rest)
          | _ => none
        else if c = 'n' then
          match r with
          | 'u' :: 'l' :: 'l' :: rest => some (Json.null, rest)
          | _ => none
        else
          match pNum (c :: r) with
          | some (raw, rest) => some (Json.jnum raw, rest)
          | none => none
    | .objRest first acc =>
      match skipWs s with
      | [] => none
      | c :: r =>
        if c = '\x7d' then some (Json.jobj acc.reverse, r)
        else if first ∨ c = ',' then
          match skipWs (if first then c :: r else r) with
          | '"' :: r' =>
            match pStr r' with
            | some (key, rest) =>
              match skipWs rest with
              | ':' :: r'' =>
                match pRun fuel .val r'' with
                | some (v, rest') => pRun fuel (.objRest false ((key, v) :: acc)) rest'
                | none => none
              | _ => none
            | none => none
          | _ => none
        else none
    | .arrRest first acc =>
      match skipWs s with
      | [] => none
      | c :: r =>
        if c = ']' then some (Json.jarr acc.reverse, r)
        else if first ∨ c = ',' then
          match pRun fuel .val (if first then c :: r else r) with
          | some (v, rest) => pRun fuel (.arrRest false (v :: acc)) rest
          | none => none
        else none

def pVal (fuel : Nat) (s : List Char) : Option (Json × List Char) :=
  pRun fuel .val s

/-- Model of JavaScript `JSON.parse`: whole-input parse, whitespace tolerated
around the value, failure returned as `none` (the decoder catches the throw). -/
def parseJson (s : List Char) : Option Json :=
  match pVal (s.length + 1) s with
  | some (j, rest) => if skipWs rest = [] then some j else none
  | none => none

/-- Last binding for a key, as JavaScript object semantics keep the last
duplicate key from `JSON.parse`. -/
def lookupLast (k : String) (kvs : List (String × Json)) : Option Json :=
  kvs.foldl (fun acc kv => if kv.1 = k then some kv.2 else acc) none

/-- Property access `parsed.content`: defined only on objects. -/
def contentVal : Json → Option Json
  | .jobj kvs => lookupLast "content" kvs
  | _ => none

/-- Whether the mantissa of a JSON number lexeme has a nonzero digit. -/
def numNonzero (raw : String) : Bool :=
  ((raw.toList.takeWhile (fun c => c ≠ 'e' ∧ c ≠ 'E')).filter
    (fun c => '1' ≤ c ∧ c ≤ '9')) ≠ []

/-- JavaScript truthiness of a parsed JSON value. -/
def jsTruthy : Json → Bool
  | .null => false
  | .jbool b => b
  | .jnum raw => numNonzero raw
  | .jstr s => s ≠ ""
  | .jarr _ => true
  | .jobj _ => true

/-- JavaScript string coercion as used by `streamedContent += parsed.content`;
all payloads produced by the repository's own chat route carry strings here. -/
def jsToString : Json → String
  | .jstr s => s
  | .jbool true => "true"
  | .jbool false => "false"
  | .null => "null"
  | .jnum raw => raw
  | .jarr _ => ""
  | .jobj _ => "[object Object]"

example : parseJson ("\x7b\"content\":\"A\"\x7d".toList) =
    some (Json.jobj [("content", Json.jstr "A")]) := by rfl

example : parseJson ("\x7bbad json".toList) = none := by rfl

example : parseJson ("not json".toList) = none := by rfl

/-! ## The Event-Stream Decoder loop of `handleSubmit` (`src/app/page.tsx` 404-443)

```
const chunk = decoder.decode(value)
const lines = chunk.split("\n")
for (const line of lines) {
  if (line.startsWith("data: ")) {
    const data = line.slice(6)
    if (data === "[DONE]") continue
    try {
      const parsed = JSON.parse(data)
      if (parsed.content) { ... streamedContent += parsed.content ... }
    } catch (e) { /- Ignore parsing errors for partial chunks -/ }
  }
}
```
-/

/-- JavaScript `chunk.split("\n")`. -/
def splitNl : List Char → List (List Char)
  | [] => [[]]
  | c :: r =>
    if c = '\n' then [] :: splitNl r
    else
      match splitNl r with
      | [] => [[c]]
      | l :: ls => (c :: l) :: ls

/-- `line.startsWith("data: ")` uses this six-character header. -/
def dataHdr : List Char := "data: ".toList

/-- Content fragments contributed by one line of a chunk: the `data: ` test,
`slice(6)`, the `[DONE]` skip, `JSON.parse` with swallowed failure, and the
truthiness test on `parsed.content`. -/
def processLine (line : List Char) : List String :=
  if line.take 6 = dataHdr then
    let data := line.drop 6
    if data = "[DONE]".toList then []
    else
      match parseJson data with
      | some j =>
        match contentVal j with
        | some v => if jsTruthy v then [jsToString v] else []
        | none => []
      | none => []
  else []

/-- Fragments of a list of lines, in order. -/
def linesFrags : List (List Char) → List String
  | [] => []
  | l :: ls => processLine l ++ linesFrags ls

/-- Fragments one network chunk contributes: the chunk is split on newline and
each resulting line is processed; no part of the chunk is carried over. -/
def decodeChunk (c : List Char) : List String :=
  linesFrags (splitNl c)

/-- Ordered fragment sequence the decoder loop emits for a chunked stream. -/
def decodeStream : List (List Char) → List String
  | [] => []
  | c :: cs => decodeChunk c ++ decodeStream cs

example : decodeChunk ("data: \x7b\"content\":\"A\"\x7d\n\ndata: [DONE]\n\n".toList) = ["A"] := by rfl

example : decodeChunk ("data: \n".toList) = [] := by rfl

/-! ### Splitting facts about the per-chunk decoder -/

/-- Gluing the possibly-incomplete trailing line of one chunk onto the first
line of the next chunk's split. -/
def glueHead (x : List Char) : List (List Char) → List (List Char)
  | [] => [x]
  | y :: ys => (x ++ y) :: ys

theorem splitNl_ne_nil (s : List Char) : splitNl s ≠ [] := by
  induction s with
  | nil => simp [splitNl]
  | cons c r ih =>
    simp only [splitNl]
    split
    · simp
    · cases h : splitNl r with
      | nil => simp
      | cons l ls => simp

theorem splitNl_append (a b : List Char) :
    splitNl (a ++ b) =
      (splitNl a).dropLast ++ glueHead (((splitNl a).getLast?).getD []) (splitNl b) := by
  induction a with
  | nil =>
    cases h : splitNl b with
    | nil => exact absurd h (splitNl_ne_nil b)
    | cons y ys => simp [splitNl, glueHead, h]
  | cons c r ih =>
    by_cases hc : c = '\n'
    · subst hc
      cases hxs : splitNl r with
      | nil => exact absurd hxs (splitNl_ne_nil r)
      | cons x xs =>
        rw [List.cons_append]
        simp only [splitNl, if_pos rfl, ih, hxs]
        cases xs with
        | nil =>
          cases hys : splitNl b with
          | nil => exact absurd hys (splitNl_ne_nil b)
          | cons y ys => simp [glueHead]
        | cons x' xs' => simp [glueHead]
    · cases hxs : splitNl r with
      | nil => exact absurd hxs (splitNl_ne_nil r)
      | cons x xs =>
        rw [List.cons_append]
        simp only [splitNl, if_neg hc, ih, hxs]
        cases xs with
        | nil =>
          cases hys : splitNl b with
          | nil => exact absurd hys (splitNl_ne_nil b)
          | cons y ys => simp [glueHead]
        | cons x' xs' =>
          cases hys : splitNl b with
          | nil => exact absurd hys (splitNl_ne_nil b)
          | cons y ys => simp [glueHead]

theorem linesFrags_append (xs ys : List (List Char)) :
    linesFrags (xs ++ ys) = linesFrags xs ++ linesFrags ys := by
  induction xs with
  | nil => rfl
  | cons l ls ih => simp [linesFrags, ih]

theorem processLine_nil : processLine [] = [] := by rfl

/-- A chunk that ends with a newline splits into its lines followed by one
final empty (fragment-free) line. -/
theorem splitNl_of_ends_nl :
    ∀ a : List Char, a.getLast? = some '\n' →
      ∃ ys : List (List Char), ys ≠ [] ∧ splitNl a = ys ++ [[]] := by
  intro a
  induction a with
  | nil => intro h; simp at h
  | cons c r ih =>
    intro h
    cases r with
    | nil =>
      simp only [List.getLast?_singleton, Option.some.injEq] at h
      subst h
      exact ⟨[[]], by simp, by simp [splitNl]⟩
    | cons c' r' =>
      rw [List.getLast?_cons_cons] at h
      obtain ⟨ys, hne, hys⟩ := ih h
      have hstep : splitNl (c :: c' :: r') =
          if c = '\n' then [] :: splitNl (c' :: r')
          else
            match splitNl (c' :: r') with
            | [] => [[c]]
            | l :: ls => (c :: l) :: ls := rfl
      by_cases hc : c = '\n'
      · subst hc
        exact ⟨[] :: ys, by simp, by rw [hstep, hys]; simp⟩
      · cases ys with
        | nil => exact absurd rfl hne
        | cons y ys' =>
          refine ⟨(c :: y) :: ys', by simp, ?_⟩
          rw [hstep, if_neg hc, hys]
          simp

/-- Chunk decoding distributes over concatenation when the first chunk is
empty or ends at a line boundary. -/
theorem decodeChunk_append (a b : List Char)
    (h : a = [] ∨ a.getLast? = some '\n') :
    decodeChunk (a ++ b) = decodeChunk a ++ decodeChunk b := by
  rcases h with h | h
  · subst h
    simp [decodeChunk, splitNl, linesFrags, processLine_nil]
  · obtain ⟨ys, hne, hys⟩ := splitNl_of_ends_nl a h
    have hdrop : (splitNl a).dropLast = ys := by rw [hys]; simp
    have hlast : (splitNl a).getLast? = some [] := by rw [hys]; exact List.getLast?_concat ys
    unfold decodeChunk
    rw [splitNl_append, hdrop, hlast]
    cases hb : splitNl b with
    | nil => exact absurd hb (splitNl_ne_nil b)
    | cons y ys' =>
      simp only [Option.getD_some, glueHead, List.nil_append]
      rw [hys, linesFrags_append, linesFrags_append]
      simp [linesFrags, processLine_nil]

theorem decodeStream_append (cs ds : List (List Char)) :
    decodeStream (cs ++ ds) = decodeStream cs ++ decodeStream ds := by
  induction cs with
  | nil => rfl
  | cons c cs ih => simp [decodeStream, ih]

/-! ## The Turn Orchestrator (`handleSubmit` / `stopStreaming` in `src/app/page.tsx`)

The `Message` record and the sequence of `setMessages` updates `handleSubmit`
performs are embedded directly; the orchestration is modelled as a state
machine whose events are exactly those updates, in the order the code can
produce them.
-/

inductive MsgType where
  | user : MsgType
  | assistant : MsgType
deriving DecidableEq

structure RAGMeta where
  document_id : String
  title : String
  section_number : Option String
  document_type : String
  legal_source : String
  source_category : String
deriving DecidableEq

structure RAGResult where
  content : String
  metadata : RAGMeta
  similarity_score : ℚ
deriving DecidableEq

structure RAGResponse where
  results : List RAGResult
  query : String
  total_results : Nat
  search_time : ℚ
deriving DecidableEq

/-- The `Message` interface of `src/app/page.tsx`; optional flags are
represented with their JavaScript-falsy default. -/
structure Msg where
  id : Nat
  type : MsgType
  content : String
  ragResponse : Option RAGResponse
  totalTime : Option Nat
  isStreaming : Bool
  isSearching : Bool
  hasError : Bool
deriving DecidableEq

/-- JavaScript `input.trim()`: strip whitespace from both ends (executable
model, as Lean's own `String.trim` is not kernel-reducible). -/
def jsTrim (s : String) : String :=
  String.mk
    (((s.toList.dropWhile Char.isWhitespace).reverse.dropWhile Char.isWhitespace).reverse)

/-- The error text the catch block of `handleSubmit` writes into the turn. -/
def errMsgText : String :=
  "Sorry, I encountered an error while processing your request. Please try again."

/-- The marker `stopStreaming` appends. -/
def stopMarker : String := " [Response stopped]"

/-- `prev.map((msg) => (msg.id === assistantMessageId ? { ...msg, ... } : msg))`. -/
def updateMsg (aId : Nat) (f : Msg → Msg) (l : List Msg) : List Msg :=
  l.map fun m => if m.id = aId then f m else m

/-- The update at line 367: attach the search response. -/
def attachRag (rag : RAGResponse) (m : Msg) : Msg :=
  { m with ragResponse := some rag }

/-- The update at line 428: clear the searching flag on the first token. -/
def clearSearching (m : Msg) : Msg :=
  { m with isSearching := false }

/-- The update at line 433: write the accumulated streamed content. -/
def setContentMsg (s : String) (m : Msg) : Msg :=
  { m with content := s }

/-- The update at line 449: mark the turn completely finished. -/
def finalizeMsg (t : Nat) (m : Msg) : Msg :=
  { m with isStreaming := false, isSearching := false, totalTime := some t,
           hasError := false }

/-- The update at line 466 (catch block): error state with the apology text. -/
def failMsg (m : Msg) : Msg :=
  { m with isStreaming := false, isSearching := false, hasError := true,
           content := errMsgText }

/-- `stopStreaming`'s message update: the last message, when it is a streaming
assistant message, gets the stop marker appended and its flags cleared. -/
def stopLast : List Msg → List Msg
  | [] => []
  | [lm] =>
    if lm.type = .assistant ∧ lm.isStreaming = true then
      [{ lm with isStreaming := false, isSearching := false,
                 content := lm.content ++ stopMarker }]
    else [lm]
  | m :: m' :: rest => m :: stopLast (m' :: rest)

/-- Orchestrator state: the message list and `isLoading` React state, the
abort-controller ref, the closure-captured `assistantMessageId` of the turn in
flight, the local `streamedContent` accumulator, and an id source modelling
`Date.now()`. -/
structure OrchState where
  messages : List Msg
  isLoading : Bool
  abortRef : Bool
  activeId : Option Nat
  acc : String
  nextId : Nat
deriving DecidableEq

def initOrch : OrchState :=
  { messages := [], isLoading := false, abortRef := false, activeId := none,
    acc := "", nextId := 0 }

/-- Events of one turn, in the order `handleSubmit` can produce them. -/
inductive TurnEv where
  | submit : String → TurnEv
  | searchOk : RAGResponse → TurnEv
  | searchFail : TurnEv
  | fragment : String → TurnEv
  | streamEnd : Nat → TurnEv
  | streamFail : TurnEv
  | cancel : TurnEv

def mkUserMsg (i : Nat) (text : String) : Msg :=
  { id := i, type := .user, content := text, ragResponse := none,
    totalTime := none, isStreaming := false, isSearching := false,
    hasError := false }

def mkAsstMsg (i : Nat) : Msg :=
  { id := i, type := .assistant, content := "", ragResponse := none,
    totalTime := none, isStreaming := true, isSearching := true,
    hasError := false }

/-- Apply a per-message update to the message of the turn in flight. -/
def updateActive (st : OrchState) (f : Msg → Msg) : List Msg :=
  match st.activeId with
  | some aId => updateMsg aId f st.messages
  | none => st.messages

/-- One orchestrator step.

* `submit` is lines 314-343: the guard `if (!input.trim() || isLoading) return`,
  then the user message and the assistant placeholder are appended.
* `searchOk` is lines 364-367 plus the abort-controller creation at 384.
* `searchFail`, `streamFail` are the catch block (462-483) and the `finally`.
* `fragment` is lines 424-436 (clear `isSearching`, write the accumulator).
* `streamEnd` is lines 445-461 plus the `finally`.
* `cancel` is `stopStreaming` (124-148). -/
def step (st : OrchState) : TurnEv → OrchState
  | .submit q =>
    if jsTrim q = "" ∨ st.isLoading = true then st
    else
      { st with
        messages := st.messages ++ [mkUserMsg st.nextId (jsTrim q), mkAsstMsg (st.nextId + 1)],
        isLoading := true, activeId := some (st.nextId + 1), acc := "",
        nextId := st.nextId + 2 }
  | .searchOk rag =>
    { st with messages := updateActive st (attachRag rag), abortRef := true }
  | .searchFail =>
    { st with messages := updateActive st failMsg, isLoading := false,
              activeId := none, abortRef := false }
  | .fragment s =>
    { st with acc := st.acc ++ s,
              messages := updateActive st fun m => setContentMsg (st.acc ++ s) (clearSearching m) }
  | .streamEnd t =>
    { st with messages := updateActive st (finalizeMsg t), isLoading := false,
              activeId := none, abortRef := false }
  | .streamFail =>
    { st with messages := updateActive st failMsg, isLoading := false,
              activeId := none, abortRef := false }
  | .cancel =>
    if st.abortRef = true then
      { st with abortRef := false, isLoading := false,
                messages := stopLast st.messages }
    else st

def runEvents (st : OrchState) : List TurnEv → OrchState
  | [] => st
  | e :: es => runEvents (step st e) es

/-- External outcomes a single turn can observe: the search call result, the
completion call status, and the raw byte chunks of the completion stream. -/
structure TurnEnv where
  searchOutcome : Except String RAGResponse
  completionOk : Bool
  chunks : List (List Char)
  elapsed : Nat

/-- The event sequence `handleSubmit` produces for one uncancelled turn: the
search result decides between catch and streaming; the decoder turns the
chunks into ordered fragment events; stream exhaustion finalizes the turn. -/
def turnTrace (q : String) (env : TurnEnv) : List TurnEv :=
  TurnEv.submit q ::
    match env.searchOutcome with
    | .error _ => [TurnEv.searchFail]
    | .ok rag =>
      TurnEv.searchOk rag ::
        if env.completionOk then
          (decodeStream env.chunks).map TurnEv.fragment ++ [TurnEv.streamEnd env.elapsed]
        else [TurnEv.streamFail]

/-- How many times the turn invokes the completion endpoint (`fetch("/api/chat")`,
line 386): never when the guard rejects the submission, never when the search
call threw, once otherwise. -/
def completionCalls (st : OrchState) (q : String) (env : TurnEnv) : Nat :=
  if jsTrim q = "" ∨ st.isLoading = true then 0
  else
    match env.searchOutcome with
    | .error _ => 0
    | .ok _ => 1

/-- The event sequence of a turn the user cancels mid-stream: after `frags`
fragments arrived, `stopStreaming` runs, then the aborted `reader.read()`
rejects and the catch block of `handleSubmit` runs. -/
def cancelTrace (q : String) (rag : RAGResponse) (frags : List String) : List TurnEv :=
  TurnEv.submit q :: TurnEv.searchOk rag ::
    (frags.map TurnEv.fragment ++ [TurnEv.cancel, TurnEv.streamFail])

/-- Spec phase `Completed` in terms of the code's flags. -/
def CompletedMsg (m : Msg) : Prop :=
  m.isStreaming = false ∧ m.hasError = false

/-- Spec phase `Failed` in terms of the code's flags. -/
def FailedMsg (m : Msg) : Prop :=
  m.hasError = true

/-! ## The field-extraction route (`src/app/api/fill-template/route.ts`)
and its caller `fillTemplateWithLLM` (`src/app/page.tsx` 184-219) -/

/-- `field.replace(/_/g, " ")`. -/
def underscoresToSpaces (s : String) : String :=
  String.mk (s.toList.map fun c => if c = '_' then ' ' else c)

def isWordChar (c : Char) : Bool :=
  c.isAlphanum || c = '_'

def capWordsAux : Bool → List Char → List Char
  | _, [] => []
  | prevWord, c :: r =>
    (if ¬ prevWord ∧ isWordChar c then c.toUpper else c) :: capWordsAux (isWordChar c) r

/-- `replace(/\b\w/g, (l) => l.toUpperCase())`. -/
def capWords (s : String) : String :=
  String.mk (capWordsAux false s.toList)

/-- The placeholder the route writes for a field when the LLM output could not
be parsed: `[Enter ${field.replace(/_/g, " ").replace(/\b\w/g, ...)}]`. -/
def placeholderFor (field : String) : String :=
  "[Enter " ++ capWords (underscoresToSpaces field) ++ "]"

/-- First occurrence split: `some (before, after)` where `after` follows the
first occurrence of `pat`. -/
def splitFirst (pat : List Char) : List Char → Option (List Char × List Char)
  | [] => if pat = [] then some ([], []) else none
  | c :: r =>
    if pat.isPrefixOf (c :: r) then some ([], (c :: r).drop pat.length)
    else
      match splitFirst pat r with
      | some (pre, post) => some (c :: pre, post)
      | none => none

/-- The markdown extraction regex of the route,
`text.match(/```json\n([\s\S]*?)\n```/)`: the capture between the first
fence opening and the earliest following fence close. -/
def mdFence (text : List Char) : Option (List Char) :=
  match splitFirst ("```json\n".toList) text with
  | some (_, rest) =>
    match splitFirst ("\n```".toList) rest with
    | some (body, _) => some body
    | none => none
  | none => none

/-- Lines 93-101 of the route: parse the fenced block if present, else the
whole text. -/
def fillParse (text : List Char) : Option Json :=
  match mdFence text with
  | some body => parseJson body
  | none => parseJson text

/-- JavaScript object spread `{ ...a, ...b }` on association lists with the
keys of `a` first (values overridden by `b`), then the new keys of `b`. -/
def mergeObj (a b : List (String × Json)) : List (String × Json) :=
  (a.map fun kv => (kv.1, (lookupLast kv.1 b).getD kv.2)) ++
    b.filter fun kv => ¬ a.any (fun kv' => kv'.1 = kv.1)

/-- Lines 92-111 of the route: `filledFields` from the LLM text (placeholders
for every template key when parsing fails, nothing from a non-object parse),
then `finalFields = { ...templateFields, ...filledFields }`. -/
def routeFinalFields (templateFields : List (String × Json)) (text : List Char) :
    List (String × Json) :=
  let filled : List (String × Json) :=
    match fillParse text with
    | some (Json.jobj kvs) => kvs
    | some _ => []
    | none => templateFields.map fun kv => (kv.1, Json.jstr (placeholderFor kv.1))
  mergeObj templateFields filled

/-- Lines 113-117 of the route: the JSON body of the 200 response. -/
def routeResponse (templateFields : List (String × Json)) (text : List Char)
    (documentType : String) : Json :=
  Json.jobj [("success", Json.jbool true),
             ("fields", Json.jobj (routeFinalFields templateFields text)),
             ("documentType", Json.jstr documentType)]

/-- Line 201 of `src/app/page.tsx`: `return result.filled_fields || {}` on the
OK response — property access on the response object, `{}` if absent/falsy. -/
def clientFilledFields (resp : Json) : Json :=
  match resp with
  | .jobj kvs =>
    match lookupLast "filled_fields" kvs with
    | some v => if jsTruthy v then v else Json.jobj []
    | none => Json.jobj []
  | _ => Json.jobj []

/-! ## The one-in-flight invariant of the orchestrator -/

/-- Invariant maintained by every orchestrator step: only the last message can
be streaming; nothing streams while `isLoading` is false; a streaming message
is the assistant message of the turn in flight. -/
def OrchInvM (msgs : List Msg) (loading : Bool) (act : Option Nat) : Prop :=
  (∀ m ∈ msgs.dropLast, m.isStreaming = false) ∧
  (loading = false → ∀ m ∈ msgs, m.isStreaming = false) ∧
  (∀ m ∈ msgs, m.isStreaming = true → act = some m.id ∧ m.type = .assistant)

def OrchInv (st : OrchState) : Prop :=
  OrchInvM st.messages st.isLoading st.activeId

theorem dropLast_map {α β : Type} (g : α → β) :
    ∀ l : List α, (l.map g).dropLast = l.dropLast.map g := by
  intro l
  induction l with
  | nil => rfl
  | cons a l ih =>
    cases l with
    | nil => rfl
    | cons b l' =>
      calc (List.map g (a :: b :: l')).dropLast
          = g a :: (List.map g (b :: l')).dropLast := by
            simp [List.dropLast_cons₂]
        _ = g a :: List.map g ((b :: l').dropLast) := by rw [ih]
        _ = List.map g ((a :: b :: l').dropLast) := by
            simp [List.dropLast_cons₂]

theorem mem_updateMsg {m' : Msg} {aId : Nat} {f : Msg → Msg} {l : List Msg}
    (h : m' ∈ updateMsg aId f l) :
    ∃ m ∈ l, m' = if m.id = aId then f m else m := by
  unfold updateMsg at h
  obtain ⟨m, hm, hq⟩ := List.mem_map.mp h
  exact ⟨m, hm, hq.symm⟩

theorem dropLast_updateMsg (aId : Nat) (f : Msg → Msg) (l : List Msg) :
    (updateMsg aId f l).dropLast = updateMsg aId f l.dropLast :=
  dropLast_map _ l

/-- Updates that do not touch `isStreaming`, `id` or `type` (attaching the
search response, clearing the searching flag, writing content) preserve the
invariant. -/
theorem invM_updateMsg_preserve {msgs : List Msg} {loading : Bool} {act : Option Nat}
    (aId : Nat) (f : Msg → Msg)
    (hid : ∀ m, (f m).id = m.id) (hty : ∀ m, (f m).type = m.type)
    (hstr : ∀ m, (f m).isStreaming = m.isStreaming)
    (h : OrchInvM msgs loading act) :
    OrchInvM (updateMsg aId f msgs) loading act := by
  obtain ⟨h1, h2, h3⟩ := h
  refine ⟨?_, ?_, ?_⟩
  · intro m' hm'
    rw [dropLast_updateMsg] at hm'
    obtain ⟨m, hm, rfl⟩ := mem_updateMsg hm'
    by_cases hcase : m.id = aId
    · simp only [if_pos hcase, hstr]; exact h1 m hm
    · simp only [if_neg hcase]; exact h1 m hm
  · intro hl m' hm'
    obtain ⟨m, hm, rfl⟩ := mem_updateMsg hm'
    by_cases hcase : m.id = aId
    · simp only [if_pos hcase, hstr]; exact h2 hl m hm
    · simp only [if_neg hcase]; exact h2 hl m hm
  · intro m' hm' hs
    obtain ⟨m, hm, rfl⟩ := mem_updateMsg hm'
    by_cases hcase : m.id = aId
    · rw [if_pos hcase] at hs ⊢
      rw [hstr] at hs
      obtain ⟨ha, hb⟩ := h3 m hm hs
      exact ⟨by rw [hid]; exact ha, by rw [hty]; exact hb⟩
    · rw [if_neg hcase] at hs ⊢
      exact h3 m hm hs

/-- After a terminal update (finalize or fail) applied to the active id,
no message is streaming. -/
theorem not_streaming_updateMsg_terminal {msgs : List Msg} {loading : Bool}
    (aId : Nat) (f : Msg → Msg)
    (hclear : ∀ m, (f m).isStreaming = false)
    (h : OrchInvM msgs loading (some aId)) :
    ∀ m' ∈ updateMsg aId f msgs, m'.isStreaming = false := by
  intro m' hm'
  obtain ⟨m, hm, rfl⟩ := mem_updateMsg hm'
  by_cases hcase : m.id = aId
  · rw [if_pos hcase]; exact hclear m
  · rw [if_neg hcase]
    cases hms : m.isStreaming with
    | false => rfl
    | true =>
      obtain ⟨ha, _⟩ := h.2.2 m hm hms
      exact absurd (Option.some.injEq _ _ ▸ ha : some aId = some m.id)
        (by simp [Ne.symm hcase])

/-- With no turn in flight, nothing is streaming. -/
theorem not_streaming_of_act_none {msgs : List Msg} {loading : Bool}
    (h : OrchInvM msgs loading none) :
    ∀ m ∈ msgs, m.isStreaming = false := by
  intro m hm
  cases hms : m.isStreaming with
  | false => rfl
  | true => exact absurd (h.2.2 m hm hms).1 (by simp)

/-- A fully non-streaming message list satisfies the invariant for any
loading flag and active id. -/
theorem invM_of_not_streaming {msgs : List Msg} (loading : Bool) (act : Option Nat)
    (h : ∀ m ∈ msgs, m.isStreaming = false) :
    OrchInvM msgs loading act := by
  refine ⟨fun m hm => h m (List.dropLast_subset _ hm), fun _ => h, ?_⟩
  intro m hm hs
  rw [h m hm] at hs
  cases hs

/-- `stopStreaming` leaves nothing streaming. -/
theorem stopLast_not_streaming :
    ∀ msgs : List Msg,
      (∀ m ∈ msgs.dropLast, m.isStreaming = false) →
      (∀ m ∈ msgs, m.isStreaming = true → m.type = .assistant) →
      ∀ m' ∈ stopLast msgs, m'.isStreaming = false := by
  intro msgs
  induction msgs with
  | nil => intro _ _ m' hm'; cases hm'
  | cons a l ih =>
    intro h1 hty m' hm'
    cases l with
    | nil =>
      by_cases hc : a.type = .assistant ∧ a.isStreaming = true
      · simp only [stopLast, if_pos hc] at hm'
        rcases List.mem_singleton.mp hm' with rfl
        rfl
      · simp only [stopLast, if_neg hc] at hm'
        rcases List.mem_singleton.mp hm' with rfl
        cases hms : m'.isStreaming with
        | false => rfl
        | true => exact absurd ⟨hty m' (by simp) hms, hms⟩ hc
    | cons b l' =>
      simp only [stopLast] at hm'
      rcases List.mem_cons.mp hm' with rfl | h
      · exact h1 m' (by simp [List.dropLast_cons₂])
      · refine ih ?_ ?_ m' h
        · intro m hm
          exact h1 m (by simp [List.dropLast_cons₂, hm])
        · intro m hm hms
          exact hty m (by simp [hm]) hms

/-- Every orchestrator step preserves the invariant. -/
theorem inv_step (st : OrchState) (ev : TurnEv) (h : OrchInv st) :
    OrchInv (step st ev) := by
  obtain ⟨h1, h2, h3⟩ := h
  cases ev with
  | submit q =>
    by_cases hg : jsTrim q = "" ∨ st.isLoading = true
    · simpa [step, if_pos hg] using (⟨h1, h2, h3⟩ : OrchInv st)
    · have hload : st.isLoading = false := by
        cases hb : st.isLoading with
        | false => rfl
        | true => exact absurd (Or.inr hb) hg
      have hns : ∀ m ∈ st.messages, m.isStreaming = false := h2 hload
      unfold OrchInv OrchInvM
      simp only [step, if_neg hg]
      refine ⟨?_, ?_, ?_⟩
      · intro m hm
        rw [show st.messages ++ [mkUserMsg st.nextId (jsTrim q), mkAsstMsg (st.nextId + 1)] =
            (st.messages ++ [mkUserMsg st.nextId (jsTrim q)]) ++ [mkAsstMsg (st.nextId + 1)]
            by simp] at hm
        rw [List.dropLast_concat] at hm
        rcases List.mem_append.mp hm with hm | hm
        · exact hns m hm
        · rcases List.mem_singleton.mp hm with rfl
          rfl
      · intro hl
        cases hl
      · intro m hm hs
        rcases List.mem_append.mp hm with hm | hm
        · rw [hns m hm] at hs
          cases hs
        · rcases List.mem_cons.mp hm with rfl | hm
          · cases hs
          · rcases List.mem_singleton.mp hm with rfl
            exact ⟨rfl, rfl⟩
  | searchOk rag =>
    cases hact : st.activeId with
    | none =>
      have : OrchInvM st.messages st.isLoading st.activeId := ⟨h1, h2, h3⟩
      show OrchInvM (updateActive st (attachRag rag)) st.isLoading st.activeId
      rw [show updateActive st (attachRag rag) = st.messages by
        unfold updateActive; rw [hact]]
      exact this
    | some aId =>
      rw [hact] at h3
      show OrchInvM (updateActive st (attachRag rag)) st.isLoading st.activeId
      rw [show updateActive st (attachRag rag) =
          updateMsg aId (attachRag rag) st.messages by
        unfold updateActive; rw [hact], hact]
      exact invM_updateMsg_preserve aId (attachRag rag)
        (fun _ => rfl) (fun _ => rfl) (fun _ => rfl) ⟨h1, h2, h3⟩
  | fragment s =>
    cases hact : st.activeId with
    | none =>
      have : OrchInvM st.messages st.isLoading st.activeId := ⟨h1, h2, h3⟩
      show OrchInvM (updateActive st fun m => setContentMsg (st.acc ++ s) (clearSearching m))
        st.isLoading st.activeId
      rw [show (updateActive st fun m => setContentMsg (st.acc ++ s) (clearSearching m)) =
          st.messages by unfold updateActive; rw [hact]]
      exact this
    | some aId =>
      rw [hact] at h3
      show OrchInvM (updateActive st fun m => setContentMsg (st.acc ++ s) (clearSearching m))
        st.isLoading st.activeId
      rw [show (updateActive st fun m => setContentMsg (st.acc ++ s) (clearSearching m)) =
          updateMsg aId (fun m => setContentMsg (st.acc ++ s) (clearSearching m)) st.messages by
        unfold updateActive; rw [hact], hact]
      exact invM_updateMsg_preserve aId (fun m => setContentMsg (st.acc ++ s) (clearSearching m))
        (fun _ => rfl) (fun _ => rfl) (fun _ => rfl) ⟨h1, h2, h3⟩
  | searchFail =>
    cases hact : st.activeId with
    | none =>
      rw [hact] at h3
      show OrchInvM (updateActive st failMsg) false none
      rw [show updateActive st failMsg = st.messages by unfold updateActive; rw [hact]]
      exact invM_of_not_streaming _ _ (not_streaming_of_act_none ⟨h1, h2, h3⟩)
    | some aId =>
      rw [hact] at h3
      show OrchInvM (updateActive st failMsg) false none
      rw [show updateActive st failMsg = updateMsg aId failMsg st.messages by
        unfold updateActive; rw [hact]]
      exact invM_of_not_streaming _ _
        (not_streaming_updateMsg_terminal aId failMsg (fun _ => rfl) ⟨h1, h2, h3⟩)
  | streamEnd t =>
    cases hact : st.activeId with
    | none =>
      rw [hact] at h3
      show OrchInvM (updateActive st (finalizeMsg t)) false none
      rw [show updateActive st (finalizeMsg t) = st.messages by
        unfold updateActive; rw [hact]]
      exact invM_of_not_streaming _ _ (not_streaming_of_act_none ⟨h1, h2, h3⟩)
    | some aId =>
      rw [hact] at h3
      show OrchInvM (updateActive st (finalizeMsg t)) false none
      rw [show updateActive st (finalizeMsg t) =
          updateMsg aId (finalizeMsg t) st.messages by
        unfold updateActive; rw [hact]]
      exact invM_of_not_streaming _ _
        (not_streaming_updateMsg_terminal aId (finalizeMsg t) (fun _ => rfl) ⟨h1, h2, h3⟩)
  | streamFail =>
    cases hact : st.activeId with
    | none =>
      rw [hact] at h3
      show OrchInvM (updateActive st failMsg) false none
      rw [show updateActive st failMsg = st.messages by unfold updateActive; rw [hact]]
      exact invM_of_not_streaming _ _ (not_streaming_of_act_none ⟨h1, h2, h3⟩)
    | some aId =>
      rw [hact] at h3
      show OrchInvM (updateActive st failMsg) false none
      rw [show updateActive st failMsg = updateMsg aId failMsg st.messages by
        unfold updateActive; rw [hact]]
      exact invM_of_not_streaming _ _
        (not_streaming_updateMsg_terminal aId failMsg (fun _ => rfl) ⟨h1, h2, h3⟩)
  | cancel =>
    by_cases hab : st.abortRef = true
    · have hgoal : OrchInvM (stopLast st.messages) false st.activeId :=
        invM_of_not_streaming _ _
          (stopLast_not_streaming st.messages h1 (fun m hm hs => (h3 m hm hs).2))
      show OrchInv (if st.abortRef = true then
        { st with abortRef := false, isLoading := false,
                  messages := stopLast st.messages } else st)
      rw [if_pos hab]
      exact hgoal
    · show OrchInv (if st.abortRef = true then
        { st with abortRef := false, isLoading := false,
                  messages := stopLast st.messages } else st)
      rw [if_neg hab]
      exact ⟨h1, h2, h3⟩

theorem inv_run : ∀ (evs : List TurnEv) (st : OrchState),
    OrchInv st → OrchInv (runEvents st evs) := by
  intro evs
  induction evs with
  | nil => intro st h; exact h
  | cons e es ih => intro st h; exact ih _ (inv_step st e h)

theorem inv_init : OrchInv initOrch :=
  ⟨fun m hm => absurd hm (by simp [initOrch]),
   fun _ m hm => absurd hm (by simp [initOrch]),
   fun m hm _ => absurd hm (by simp [initOrch])⟩

theorem countP_streaming_le_one :
    ∀ l : List Msg, (∀ m ∈ l.dropLast, m.isStreaming = false) →
      l.countP (fun m => m.isStreaming) ≤ 1 := by
  intro l
  induction l with
  | nil => intro _; simp
  | cons a l ih =>
    intro h
    cases l with
    | nil =>
      rw [List.countP_cons]
      simp only [List.countP_nil, Nat.zero_add]
      split <;> simp
    | cons b l' =>
      have ha : a.isStreaming = false := h a (by simp [List.dropLast_cons₂])
      have hrest := ih (fun m hm => h m (by simp [List.dropLast_cons₂, hm]))
      rw [List.countP_cons]
      simpa [ha] using hrest

/-! ## Concrete data shared by the claims -/

/-- The retrieved passage of the end-to-end scenario of the specification. -/
def demoResult : RAGResult :=
  { content := "Section 420 deals with cheating",
    metadata := { document_id := "1", title := "IPC", section_number := none,
                  document_type := "statute", legal_source := "IPC",
                  source_category := "criminal" },
    similarity_score := 9 / 10 }

/-- The search response of the end-to-end scenario of the specification. -/
def demoRag : RAGResponse :=
  { results := [demoResult], query := "What is Section 420 IPC?",
    total_results := 1, search_time := 1 / 2 }

/-! ## Claim theorems -/

/-- C1 counterexample: delivering `data: {"content":"A"}\n\ndata: [DONE]\n\n`
split mid-JSON-object yields no fragment at all, while the single-chunk
delivery yields `["A"]`; the incomplete trailing line `data: {"con` is NOT
retained and completed by the next chunk — it is dropped, so the decoder is
not chunk-boundary invariant. -/
theorem c1_mid_line_split_loses_fragment :
    decodeStream ["data: \x7b\"con".toList,
                  "tent\":\"A\"\x7d\n\ndata: [DONE]\n\n".toList] = [] ∧
    decodeStream ["data: \x7b\"con".toList ++
                  "tent\":\"A\"\x7d\n\ndata: [DONE]\n\n".toList] = ["A"] :=
  ⟨rfl, rfl⟩

/-- C1 (amended): the decoder is chunk-boundary invariant only for splits at
line boundaries: whenever every chunk is empty or ends with a newline, the
chunked stream yields the same ordered fragment sequence as the single-chunk
stream. (An incomplete trailing line is not retained; splits inside a line
can drop its fragment, as the counterexample shows.) -/
theorem c1_newline_aligned_invariance :
    ∀ chunks : List (List Char),
      (∀ c ∈ chunks, c = [] ∨ c.getLast? = some '\n') →
      decodeStream chunks = decodeStream [chunks.flatten] := by
  intro chunks h
  have key : ∀ cs : List (List Char),
      (∀ c ∈ cs, c = [] ∨ c.getLast? = some '\n') →
      decodeStream cs = decodeChunk cs.flatten := by
    intro cs
    induction cs with
    | nil =>
      intro _
      show ([] : List String) = decodeChunk []
      rw [show decodeChunk [] = linesFrags [[]] from rfl]
      rw [show linesFrags [[]] = processLine [] ++ linesFrags [] from rfl,
        processLine_nil]
      rfl
    | cons c cs ih =>
      intro hall
      have hc := hall c (by simp)
      have hcs : ∀ c' ∈ cs, c' = [] ∨ c'.getLast? = some '\n' :=
        fun c' hc' => hall c' (List.mem_cons_of_mem _ hc')
      show decodeChunk c ++ decodeStream cs = decodeChunk (c :: cs).flatten
      rw [show (c :: cs).flatten = c ++ cs.flatten by simp,
        decodeChunk_append c cs.flatten hc, ih hcs]
  rw [key chunks h]
  simp [decodeStream]

/-- C1 amended-claim witness at a concrete newline-aligned split. -/
theorem c1_newline_aligned_invariance_witness :
    (∀ c ∈ ["data: \x7b\"content\":\"A\"\x7d\n".toList, "\ndata: [DONE]\n\n".toList],
      c = [] ∨ c.getLast? = some '\n') ∧
    decodeStream ["data: \x7b\"content\":\"A\"\x7d\n".toList, "\ndata: [DONE]\n\n".toList] =
      decodeStream [(["data: \x7b\"content\":\"A\"\x7d\n".toList,
        "\ndata: [DONE]\n\n".toList] : List (List Char)).flatten] :=
  ⟨by decide, c1_newline_aligned_invariance _ (by decide)⟩

/-- C2 counterexample: `data: [DONE]` does not terminate the fragment
sequence — the loop merely `continue`s, so a valid content line arriving
after the sentinel is still emitted. -/
theorem c2_content_after_done_still_emitted :
    decodeStream ["data: [DONE]\n\ndata: \x7b\"content\":\"X\"\x7d\n\n".toList] = ["X"] ∧
    decodeStream ["data: [DONE]\n\ndata: \x7b\"content\":\"X\"\x7d\n\n".toList] ≠ [] :=
  ⟨rfl, by decide⟩

/-- C2 (amended): a `[DONE]` line itself yields no fragment — the decoder
skips it and the chunk contributes nothing — but processing continues, so the
sequence does not terminate at the sentinel. For the specification's example
stream the decoder yields exactly `["A", "B"]`. -/
theorem c2_done_line_skipped_without_terminating :
    decodeStream
      ["data: \x7b\"content\":\"A\"\x7d\n\ndata: \x7b\"content\":\"B\"\x7d\n\ndata: [DONE]\n\n".toList] =
      ["A", "B"] ∧
    ∀ pre post : List (List Char),
      decodeStream (pre ++ "data: [DONE]\n\n".toList :: post) =
        decodeStream pre ++ decodeStream post := by
  refine ⟨rfl, ?_⟩
  intro pre post
  rw [show pre ++ "data: [DONE]\n\n".toList :: post =
      pre ++ (["data: [DONE]\n\n".toList] ++ post) by simp,
    decodeStream_append, decodeStream_append]
  rw [show decodeStream ["data: [DONE]\n\n".toList] = [] from rfl]
  rw [List.nil_append]

/-- C8: a `data: ` line whose payload fails to parse as JSON emits no
fragment and is silently discarded; the surrounding lines are processed
exactly as if the malformed line were absent (`JSON.parse` failures are
swallowed by the empty catch block). -/
theorem c8_malformed_line_discarded :
    ∀ line : List Char, parseJson (line.drop 6) = none →
      processLine line = [] ∧
      ∀ pre post : List (List Char),
        linesFrags (pre ++ line :: post) = linesFrags pre ++ linesFrags post := by
  intro line h
  have hpl : processLine line = [] := by
    by_cases h6 : line.take 6 = dataHdr
    · by_cases hd : line.drop 6 = "[DONE]".toList
      · simp [processLine, h6, hd]
      · simp [processLine, h6, hd, h]
    · simp [processLine, h6]
  refine ⟨hpl, ?_⟩
  intro pre post
  rw [show pre ++ line :: post = pre ++ ([line] ++ post) by simp,
    linesFrags_append, linesFrags_append]
  rw [show linesFrags [line] = processLine line ++ linesFrags [] from rfl, hpl]
  rfl

/-- C8 witness: the specification's `data: {bad json` line. -/
theorem c8_malformed_line_discarded_witness :
    parseJson (("data: \x7bbad json".toList).drop 6) = none ∧
    processLine ("data: \x7bbad json".toList) = [] :=
  ⟨rfl, (c8_malformed_line_discarded ("data: \x7bbad json".toList) rfl).1⟩

/-- C3: the code contradicts the claim. When the user cancels mid-stream,
`stopStreaming` does append `" [Response stopped]"` and clear the flags, but
the aborted `reader.read()` then rejects and the indiscriminate catch block of
`handleSubmit` overwrites the assistant text with the generic apology and sets
the error flag — the turn ends in the error state, not in the Cancelled state
the claim describes. -/
theorem c3_cancellation_clobbered_by_error_path :
    (runEvents initOrch [TurnEv.submit "q3", TurnEv.searchOk demoRag,
        TurnEv.fragment "Hello", TurnEv.cancel]).messages.getLast?.map
      (fun m => (m.content, m.isStreaming, m.hasError)) =
      some ("Hello" ++ stopMarker, false, false) ∧
    (runEvents initOrch (cancelTrace "q3" demoRag ["Hello"])).messages.getLast?.map
      (fun m => (m.content, m.hasError)) = some (errMsgText, true) ∧
    errMsgText ≠ "Hello" ++ stopMarker :=
  ⟨rfl, rfl, by decide⟩

/-- The environment of the C4 counterexample: the completion stream carries
only the `[DONE]` sentinel, so zero content fragments are decoded. -/
def c4Env : TurnEnv :=
  { searchOutcome := .ok demoRag, completionOk := true,
    chunks := ["data: [DONE]\n\n".toList], elapsed := 1200 }

/-- C4 counterexample: when the stream ends with zero fragments ever
received, the turn is finalized exactly like a successful one — streaming and
searching flags cleared, `hasError` false (Completed), `totalTime` recorded,
content left empty. It does not transition to Failed. -/
theorem c4_zero_fragment_turn_marked_completed :
    (runEvents initOrch (turnTrace "q4" c4Env)).messages.getLast?.map
      (fun m => (m.isStreaming, m.isSearching, m.hasError, m.content, m.totalTime)) =
      some (false, false, false, "", some 1200) :=
  rfl

/-- C4 (amended): if the completion stream ends without ever producing a
content fragment, the turn transitions to Completed with empty assistantText;
the code has no empty-response failure path. -/
theorem c4_zero_fragments_completed :
    ∀ (q : String) (env : TurnEnv) (rag : RAGResponse),
      env.searchOutcome = .ok rag → env.completionOk = true →
      decodeStream env.chunks = [] → jsTrim q ≠ "" →
      (runEvents initOrch (turnTrace q env)).messages.getLast?.map
        (fun m => (m.isStreaming, m.hasError, m.content)) =
        some (false, false, "") := by
  intro q env rag hok hcomp hdec hq
  unfold turnTrace
  rw [hok, hcomp, hdec]
  simp [runEvents, step, initOrch, updateActive, updateMsg, mkUserMsg, mkAsstMsg,
    attachRag, finalizeMsg, hq]

/-- C4 amended-claim witness. -/
theorem c4_zero_fragments_completed_witness :
    decodeStream c4Env.chunks = [] ∧
    (runEvents initOrch (turnTrace "q4" c4Env)).messages.getLast?.map
      (fun m => (m.isStreaming, m.hasError, m.content)) = some (false, false, "") :=
  ⟨rfl, c4_zero_fragments_completed "q4" c4Env demoRag rfl rfl rfl (by decide)⟩

/-- C5: a turn whose search call fails never invokes the completion endpoint
(call count 0); the turn ends in the error state with the error text recorded
in the message (the detail goes to the toast). -/
theorem c5_search_failure_skips_completion :
    ∀ (q : String) (env : TurnEnv) (e : String),
      env.searchOutcome = .error e → jsTrim q ≠ "" →
      completionCalls initOrch q env = 0 ∧
      (runEvents initOrch (turnTrace q env)).messages.getLast?.map
        (fun m => (m.hasError, m.isStreaming, m.content)) =
        some (true, false, errMsgText) := by
  intro q env e herr hq
  constructor
  · simp [completionCalls, initOrch, hq, herr]
  · unfold turnTrace
    rw [herr]
    simp [runEvents, step, initOrch, updateActive, updateMsg, mkUserMsg, mkAsstMsg,
      failMsg, hq]

/-- C5 witness. -/
theorem c5_search_failure_skips_completion_witness :
    completionCalls initOrch "hi"
        ⟨.error "boom", true, [], 0⟩ = 0 ∧
    (runEvents initOrch (turnTrace "hi" ⟨.error "boom", true, [], 0⟩)).messages.getLast?.map
      (fun m => (m.hasError, m.isStreaming, m.content)) = some (true, false, errMsgText) :=
  c5_search_failure_skips_completion "hi" ⟨.error "boom", true, [], 0⟩ "boom" rfl (by decide)

/-- The environment of the end-to-end scenario: one retrieved passage, a
completion stream carrying `"Section 420 "` then `"covers cheating."` then the
sentinel. -/
def c9Env : TurnEnv :=
  { searchOutcome := .ok demoRag, completionOk := true,
    chunks := [("data: \x7b\"content\":\"Section 420 \"\x7d\n\n" ++
      "data: \x7b\"content\":\"covers cheating.\"\x7d\n\ndata: [DONE]\n\n").toList],
    elapsed := 1200 }

/-- C9: the end-to-end scenario. The user message carries the question, the
assistant message ends with `assistantText = "Section 420 covers cheating."`
(the fragments concatenated strictly in arrival order), the turn is Completed
(not streaming, no error), and exactly one grounding result is attached. -/
theorem c9_end_to_end_turn :
    (runEvents initOrch (turnTrace "What is Section 420 IPC?" c9Env)).messages.map
      (fun m => (m.type, m.content)) =
      [(MsgType.user, "What is Section 420 IPC?"),
       (MsgType.assistant, "Section 420 covers cheating.")] ∧
    (runEvents initOrch (turnTrace "What is Section 420 IPC?" c9Env)).messages.getLast?.map
      (fun m => (m.isStreaming, m.hasError, m.ragResponse.map fun r => r.results.length)) =
      some (false, false, some 1) :=
  ⟨rfl, rfl⟩

/-- C7: for every event sequence, at most one message is in a non-terminal
(streaming) phase, and submitting while a turn is in flight — or with
whitespace-only input — is a no-op returning the state unchanged (the guard
`if (!input.trim() || isLoading) return`). -/
theorem c7_one_turn_in_flight :
    ∀ evs : List TurnEv,
      (runEvents initOrch evs).messages.countP (fun m => m.isStreaming) ≤ 1 ∧
      ∀ q : String,
        (jsTrim q = "" ∨ (runEvents initOrch evs).isLoading = true) →
        step (runEvents initOrch evs) (TurnEv.submit q) = runEvents initOrch evs := by
  intro evs
  have hinv : OrchInv (runEvents initOrch evs) := inv_run evs initOrch inv_init
  constructor
  · exact countP_streaming_le_one _ hinv.1
  · intro q hq
    show (if jsTrim q = "" ∨ (runEvents initOrch evs).isLoading = true then
        runEvents initOrch evs
      else _) = runEvents initOrch evs
    rw [if_pos hq]

/-- C7 witness: after one submission a turn is in flight; a second submission
(and a whitespace-only submission) is a no-op. -/
theorem c7_one_turn_in_flight_witness :
    (runEvents initOrch [TurnEv.submit "hello"]).messages.countP
      (fun m => m.isStreaming) ≤ 1 ∧
    step (runEvents initOrch [TurnEv.submit "hello"]) (TurnEv.submit "  ") =
      runEvents initOrch [TurnEv.submit "hello"] :=
  ⟨(c7_one_turn_in_flight [TurnEv.submit "hello"]).1,
   (c7_one_turn_in_flight [TurnEv.submit "hello"]).2 "  " (Or.inl (by decide))⟩

/-- A template schema with one field, as returned by the backend's
get-template endpoint. -/
def c6Template : List (String × Json) := [("sender_name", Json.jstr "")]

/-- C6: the code contradicts the claim. On extraction failure the route does
fill every template key with a non-empty placeholder and returns the complete
map — but under the response key `fields`, while the client reads
`result.filled_fields`, which is absent; so the DocumentDraft's field map is
always the empty object and contains none of the template keys. -/
theorem c6_filled_fields_key_mismatch :
    routeFinalFields c6Template ("not json".toList) =
      [("sender_name", Json.jstr "[Enter Sender Name]")] ∧
    clientFilledFields (routeResponse c6Template ("not json".toList) "legal_notice") =
      Json.jobj [] :=
  ⟨rfl, rfl⟩

/-- The five message updates the orchestrator performs between appending the
placeholder and reaching a terminal state. -/
def orchestratorUpdates (rag : RAGResponse) (s : String) (t : Nat) : List (Msg → Msg) :=
  [attachRag rag, clearSearching, setContentMsg s, finalizeMsg t, failMsg]

/-- C10: frame property. Every state update of the orchestrator is a map over
the message list guarded by `msg.id === assistantMessageId`, so it preserves
the list's length and order, preserves every message's id, and leaves every
message whose id differs from the target completely unchanged. -/
theorem c10_updates_touch_only_target :
    ∀ (rag : RAGResponse) (s : String) (t : Nat) (f : Msg → Msg),
      f ∈ orchestratorUpdates rag s t →
      ∀ (msgs : List Msg) (tid : Nat),
        (updateMsg tid f msgs).length = msgs.length ∧
        (∀ i : Nat, ((updateMsg tid f msgs)[i]?).map Msg.id =
          (msgs[i]?).map Msg.id) ∧
        (∀ i : Nat, ∀ m : Msg, msgs[i]? = some m → m.id ≠ tid →
          (updateMsg tid f msgs)[i]? = some m) := by
  intro rag s t f hf msgs tid
  have hid : ∀ m : Msg, (f m).id = m.id := by
    simp only [orchestratorUpdates, List.mem_cons, List.not_mem_nil, or_false] at hf
    rcases hf with rfl | rfl | rfl | rfl | rfl <;> intro m <;> rfl
  refine ⟨by simp [updateMsg], ?_, ?_⟩
  · intro i
    unfold updateMsg
    rw [List.getElem?_map]
    cases msgs[i]? with
    | none => rfl
    | some m =>
      by_cases h : m.id = tid
      · simp [h, hid]
      · simp [h]
  · intro i m hm hne
    unfold updateMsg
    rw [List.getElem?_map, hm]
    simp [hne]

/-- C10 witness: updating the assistant message (id 1) leaves the user
message (id 0) untouched. -/
theorem c10_updates_touch_only_target_witness :
    clearSearching ∈ orchestratorUpdates demoRag "x" 5 ∧
    (updateMsg 1 clearSearching [mkUserMsg 0 "hi", mkAsstMsg 1])[0]? =
      some (mkUserMsg 0 "hi") :=
  ⟨by simp [orchestratorUpdates],
   (c10_updates_touch_only_target demoRag "x" 5 clearSearching
      (by simp [orchestratorUpdates]) [mkUserMsg 0 "hi", mkAsstMsg 1] 1).2.2 0
      (mkUserMsg 0 "hi") rfl (by decide)⟩

end AccessLaw
